import Mathlib

/-!
Verification of the CppHelpers library (ArrayVector.h, Variant.h, Guard.h)
against its natural-language specification.

The C++ containers are shallowly embedded:

* An `ArrayVector<T, N>`'s live contents (the constructed prefix
  `storage_[0 .. size_)`) is modelled as a `List α`.  Each member function is
  translated loop-by-loop from `ArrayVector.h`; the compile-time
  `if constexpr` fast paths are modelled as explicit alternatives where they
  can differ from the general path.
* The checked mode (`PerformBoundsCheck = true`) is modelled with
  `Except`/`Option` error results mirroring the `throw` in `checkSize`.
* The raw-storage fast path of `expand` is modelled by the list of slot
  indices its `std::fill` writes, because it writes slots that are outside
  the live prefix (and, as proved below, one slot too many).
* `Variant`'s compile-time alternative selection (`detail::Index`,
  `detail::IndexForType`) is modelled over an abstract universe `Ty` of type
  codes with a decidable equality (exact-match `std::is_same`) and a boolean
  relation `ctor t e` standing for `std::is_constructible_v<t, e>`.
* `Variant`'s two visit strategies are modelled over a dependent model of a
  tagged union; the chain strategy returns `Option` so that its
  fell-off-the-end fallback (which reinterprets the storage as alternative 0)
  is distinguishable from a genuine dispatch.
* Guards are modelled by their state (`active_` flag resp. trampoline
  pointer), with the drop behaviour expressed as the number of payload
  invocations the destructor performs.
-/

namespace CppHelpers

/-! ## ArrayVector: live-prefix model (ArrayVector.h) -/

variable {α : Type}

/-- pop_back (ArrayVector.h 182-188): removes the last live element.
Both `if constexpr` branches (plain `size_--` for trivially destructible `T`,
destroy-then-decrement otherwise) shorten the live prefix by one. -/
def pop_back (v : List α) : List α := v.dropLast

/-- shorten (ArrayVector.h 332-340), general branch: `while (toSize < size_) pop_back();`.
The trivially-destructible branch writes `size_ = toSize` directly; for
`toSize ≤ size_` (every call site modelled here reaches shorten only with
`toSize` at most the current size, except assignment, where the exposed slots
are overwritten before they become observable) the resulting live prefix is
the same. -/
def shorten (v : List α) (toSize : Nat) : List α :=
  if toSize < v.length then shorten (pop_back v) toSize else v
termination_by v.length
decreasing_by simp [pop_back]; omega

/-- clear (ArrayVector.h 216-218): `shorten(0)`. -/
def clear (v : List α) : List α := shorten v 0

/-- emplace_back / push_back (ArrayVector.h 164-180) in assertion mode:
constructs the element into slot `size_` and increments `size_`.  The
`checkSize()` assertion (`size_ < capacity_`) never fires at the call sites
modelled with this function (they only re-insert elements that came out of a
vector of the same capacity). -/
def push_back (v : List α) (x : α) : List α := v ++ [x]

/-- The loop `while (this->size_ < other.size()) push_back(std::move(other[this->size_]));`
from the move constructor (93-95) and both assignment operators (123-125,
138-140). -/
def movePushLoop (dst src : List α) : List α :=
  if h : dst.length < src.length then
    movePushLoop (push_back dst (src.get ⟨dst.length, h⟩)) src
  else dst
termination_by src.length - dst.length
decreasing_by simp [push_back]; omega

/-- Move construction (ArrayVector.h 85-101).  `trivialMC` selects the
`std::is_trivially_move_constructible_v<T>` branch (a `memcpy` of
`other.size_` elements followed by `size_ = other.size_`); otherwise the
push_back loop runs.  Either way `other.clear()` runs last.  Returns
(contents of the new vector, contents of the source afterwards). -/
def moveConstruct (trivialMC : Bool) (src : List α) : List α × List α :=
  let dst := if trivialMC then src else movePushLoop [] src
  (dst, clear src)

/-- The loop `while (idx < size_) (*this)[idx] = other[idx]; idx++;` of the
assignment operators (118-122, 133-137): overwrites each live slot of `dst`
with the element of `src` at the same position.  (After `shorten(other.size())`
the destination is never longer than `src`, so the truncation of `zipWith`
is exact.) -/
def overwriteLoop (dst src : List α) : List α :=
  List.zipWith (fun _ y => y) dst src

/-- Move assignment (ArrayVector.h 131-146): `shorten(other.size())`, then the
overwrite loop, then the push_back loop, then `other.clear()`.  Returns
(contents of destination, contents of source afterwards).
For trivially destructible `T`, `shorten` sets `size_ = other.size()` directly,
possibly exposing raw slots; the overwrite loop then runs over all of them
(`idx < size_ = other.size()`), so the final live prefix is the same as the
one computed here via the general path. -/
def moveAssign (dst src : List α) : List α × List α :=
  let d1 := shorten dst src.length
  let d2 := overwriteLoop d1 src
  let d3 := movePushLoop d2 src
  (d3, clear src)

/-- `std::swap(smaller, larger)` as executed inside the friend `swap`
(ArrayVector.h 308).  `smaller` and `larger` are C++ *references* bound to
`a1` and `a2`; `std::swap` on them exchanges the referred-to objects'
contents via `tmp = move(a1); a1 = move(a2); a2 = move(tmp);` — it cannot
re-seat the references.  Returns the contents of (a1, a2) afterwards. -/
def stdSwapObjects (a b : List α) : List α × List α :=
  let p1 := moveConstruct false a
  let p2 := moveAssign p1.2 b
  let p3 := moveAssign p2.2 p1.1
  (p2.1, p3.1)

/-- `std::swap_ranges(smaller.begin(), smaller.end(), larger.begin())`
(ArrayVector.h 310): exchanges the first `smaller.size()` elements.
Returns (smaller, larger) afterwards. -/
def swapRanges (s l : List α) : List α × List α :=
  (List.zipWith (fun _ y => y) s l,
   List.zipWith (fun x _ => x) s l ++ l.drop s.length)

/-- Lines 310-316 of the friend `swap`: swap_ranges, then
`std::for_each(larger.begin() + smallerSize, larger.end(), push_back into smaller)`,
then `larger.shorten(smallerSize)`. -/
def swapAVCore (s l : List α) : List α × List α :=
  let p := swapRanges s l
  let smallerSize := p.1.length
  let s2 := (p.2.drop smallerSize).foldl push_back p.1
  let l2 := shorten p.2 smallerSize
  (s2, l2)

/-- friend swap (ArrayVector.h 304-317).  `smaller`/`larger` are references
initialised to `a1`/`a2`; when `a1.size() > a2.size()` the code executes
`std::swap(smaller, larger)`, which swaps the two objects' contents (the
references still denote `a1` and `a2` afterwards).  Returns the contents of
(a1, a2) after the call. -/
def swapAV (a1 a2 : List α) : List α × List α :=
  let p := if a2.length < a1.length then stdSwapObjects a1 a2 else (a1, a2)
  swapAVCore p.1 p.2

/-- The loop `while (last < end()) *first++ = std::move(*last++);` of
`erase(from, to)` (ArrayVector.h 290-292), acting on the storage `s` with
cursor positions `first` and `last`.  Returns the storage and the final
cursor positions. -/
def shiftLoop (s : List α) (first last : Nat) : List α × Nat × Nat :=
  if h : last < s.length then
    shiftLoop (s.set first (s.get ⟨last, h⟩)) (first + 1) (last + 1)
  else (s, first, last)
termination_by s.length - last
decreasing_by simp; omega

/-- erase(from, to) (ArrayVector.h 286-294) with `from`/`to` given as
positions `a`/`b`: the shift-down loop followed by
`shorten(size() - (last - first))`. -/
def eraseRange (v : List α) (a b : Nat) : List α :=
  let r := shiftLoop v a b
  shorten r.1 (r.1.length - (r.2.2 - r.2.1))

/-- operator== (ArrayVector.h 296-298): `std::equal(l.begin(), l.end(), r.begin())`
compares exactly the first `l.size()` element pairs; the sizes themselves are
never compared.  (Defined in C++ only when `l.size() ≤ r.size()`; otherwise
`std::equal` reads past `r`'s live prefix.) -/
def avBeq [DecidableEq α] (l r : List α) : Bool :=
  (List.zipWith (fun x y => decide (x = y)) l r).all id

/-! ## ArrayVector: expand fast path (raw-storage writes) -/

/-- The slot indices written by the trivially-constructible fast path of
`expand(toSize[, value])` (ArrayVector.h 342-366): with current size `L`,
`begin = storage + L` and `end = begin + (toSize - L) + 1`, so
`std::fill(begin, end, v)` writes the `toSize - L + 1` slots
`L, L+1, …, toSize`. -/
def expandWritesTrivial (L k : Nat) : List Nat := List.range' L (k - L + 1)

/-- The slot indices written by the general path of `expand`: the
`while (size_ < toSize) emplace_back(...)` loop writes slots `L, …, toSize-1`. -/
def expandWritesGeneral (L k : Nat) : List Nat := List.range' L (k - L)

/-! ## ArrayVector: checked mode (PerformBoundsCheck = true) -/

/-- The recoverable error thrown by `checkSize` (ArrayVector.h 368-377). -/
inductive AVError where
  | capacityExceeded
deriving DecidableEq, Repr

/-- checkSize (ArrayVector.h 368-377) in checked mode: throws
`capacity exceeded` when `size_ >= capacity_`. -/
def checkSize (cap size : Nat) : Except AVError Unit :=
  if cap ≤ size then .error .capacityExceeded else .ok ()

/-- emplace_back (ArrayVector.h 172-180) in checked mode: `checkSize()` first,
then placement-construction into slot `size_`, then `size_++`.  When
`checkSize` throws, neither the storage nor `size_` has been touched. -/
def emplace_backC (cap : Nat) (v : List α) (x : α) : Except AVError (List α) :=
  match checkSize cap v.length with
  | .error e => .error e
  | .ok _ => .ok (v ++ [x])

/-- The general (non-trivially-constructible) path of `expand` in checked
mode: `while (size_ < toSize) emplace_back(value);` with emplace_back inlined.
When an iteration throws, the exception propagates: the result is the vector
as built so far, paired with the error. -/
def expandC (cap : Nat) (v : List α) (k : Nat) (x : α) : List α × Option AVError :=
  if v.length < k then
    if cap ≤ v.length then (v, some .capacityExceeded)
    else expandC cap (v ++ [x]) k x
  else (v, none)
termination_by k - v.length
decreasing_by simp; omega

/-- The trivially-constructible fast path of `expand` in checked mode
(ArrayVector.h 342-366): the branch contains no `checkSize()` call at all, so
no error can be produced; it fills the raw slots `[L, k]` and sets
`size_ = k`.  Returns (slots written, new size_, error). -/
def expandTrivialC (L k : Nat) : List Nat × Nat × Option AVError :=
  (expandWritesTrivial L k, k, none)

/-- The count constructor `ArrayVector(initialSize, defaultValue)`
(ArrayVector.h 66-69) on the checked, non-trivially-constructible path:
after a debug `assert(initialSize <= capacity_)`, it is `expand(initialSize,
defaultValue)` from the empty state. -/
def countCtorC (cap count : Nat) (x : α) : List α × Option AVError :=
  expandC cap [] count x

/-! ## ArrayVector: assertion-mode observations -/

/-- An ArrayVector state: live contents plus the compile-time capacity `N`. -/
structure AVState (α : Type) where
  data : List α
  cap : Nat
deriving DecidableEq, Repr

/-- operator[] (ArrayVector.h 220-228): `assert(pos >= 0 && pos < capacity_)`.
The assertion compares `pos` with the *capacity*, not with `size_`.  Returns
`true` iff the assertion fails, i.e. iff the access aborts in assertion mode. -/
def opIndexAborts (v : AVState α) (pos : Nat) : Bool :=
  decide (v.cap ≤ pos)

/-- pop_back (ArrayVector.h 182-188) performs no emptiness check: it executes
`size_--` (resp. `--size_`) unconditionally.  `size_` is a `std::size_t`, so
the decrement wraps modulo `2^64`. -/
def popBackSize (size : Nat) : Nat := (size + (2 ^ 64 - 1)) % 2 ^ 64

/-! ## Variant: alternative selection (Variant.h) -/

variable {Ty : Type}

/-- detail::Index (Variant.h 27-37): index of the first exact
(`std::is_same`) occurrence of `e` in the pack.  On a pack without an
occurrence the C++ template has no matching specialisation (ill-formed); the
total model returns the pack length in that case and is only ever used under
a membership hypothesis. -/
def IndexV [DecidableEq Ty] (e : Ty) : List Ty → Nat
  | [] => 0
  | t :: ts => if e = t then 0 else 1 + IndexV e ts

/-- detail::IsOneOf / IsInPack (Variant.h 57-66): the disjunction of
`std::is_same<e, t>` over the pack. -/
def IsInPack [DecidableEq Ty] (e : Ty) (pack : List Ty) : Bool :=
  pack.contains e

/-- detail::IndexForType (Variant.h 76-87): if the pack contains `e` exactly,
the index of the first exact match; otherwise the head is taken when
`std::is_constructible_v<head, e>` holds (`ctor head e`), else recurse with
index shifted by one.  An empty pack is ill-formed in C++ (the constructor
using this is SFINAE-gated on some alternative being constructible); the
model returns 0 there. -/
def IndexForType [DecidableEq Ty] (ctor : Ty → Ty → Bool) (e : Ty) : List Ty → Nat
  | [] => 0
  | t :: ts =>
    if IsInPack e (t :: ts) then IndexV e (t :: ts)
    else if ctor t e then 0
    else 1 + IndexForType ctor e ts

/-- The converting-constructor selection (Variant.h 154-165): constructor one
is enabled iff the decayed argument type is in the pack and uses
`detail::Index_v` (exact match); constructor two is enabled iff it is not in
the pack but some alternative is constructible from it, and uses
`detail::IndexForType`.  Returns the selected tag, or `none` when neither
constructor is viable. -/
def selectTag [DecidableEq Ty] (ctor : Ty → Ty → Bool) (e : Ty) (pack : List Ty) : Option Nat :=
  if IsInPack e pack then some (IndexV e pack)
  else if pack.any (fun t => ctor t e) then some (IndexForType ctor e pack)
  else none

/-- The observable result of constructing a Variant: the tag stored by
`init<Idx>` (Variant.h 274-279) plus the alternative type
`detail::TypeAt<Idx, Ts...>` that `init` placement-constructs. -/
structure VariantVal (Ty : Type) where
  tag : Nat
  heldType : Ty
deriving DecidableEq, Repr

/-- Default construction (Variant.h 183-185): `init<0>()` — tag 0, alternative
0 default-constructed. -/
def constructDefault (pack : List Ty) (h : pack ≠ []) : VariantVal Ty :=
  ⟨0, pack.head h⟩

/-- Construction from a value (Variant.h 154-171): the selected constructor
delegates to `init<Idx>(forward(element))`, which stores tag `Idx` and
constructs alternative `TypeAt<Idx>` from the value. -/
def constructFromValue [DecidableEq Ty] (ctor : Ty → Ty → Bool) (e : Ty) (pack : List Ty) :
    Option (VariantVal Ty) :=
  (selectTag ctor e pack).map fun j => ⟨j, pack.getD j e⟩

/-! ## Variant: visit dispatch (Variant.h 298-347) -/

/-- A model of a `Variant` value with `k` alternatives of (Lean) types
`σ 0, …, σ (k-1)`: the tag invariant (`typeIdx_` is a valid index and the
storage holds a value of the alternative at that index) is built in. -/
structure VariantM (k : Nat) (σ : Fin k → Type) where
  tag : Fin k
  val : σ tag

/-- The table strategy (Variant.h 313-323): `lookup[v.getIndex()]` selects the
thunk generated for index `tag`, and that thunk performs the single call
`visitor(v.getAt<tag>())`, i.e. the visitor applied to the live alternative. -/
def visitTable {k : Nat} {σ : Fin k → Type} {β : Type}
    (f : (j : Fin k) → σ j → β) (v : VariantM k σ) : β :=
  f v.tag v.val

/-- The chain strategy (Variant.h 328-340), `run<Index>`: starting from
`Index = 0`, compare `v.getIndex()` with `Index`; on a match, the single call
`visitor(v.getAt<Index>())`; otherwise recurse at `Index + 1`.  When
`Index == Count` the code falls back to `visitor(getAt<0>(v))`, reinterpreting
the storage as alternative 0 even though the tag is not 0 — unreachable for a
well-tagged variant; the model returns `none` there. -/
def visitChain {k : Nat} {σ : Fin k → Type} {β : Type}
    (f : (j : Fin k) → σ j → β) (v : VariantM k σ) (i : Nat) : Option β :=
  if h : i < k then
    if htag : v.tag = ⟨i, h⟩ then some (f v.tag v.val)
    else visitChain f v (i + 1)
  else none
termination_by k - i
decreasing_by omega

/-! ## Guard model (Guard.h) -/

/-- StackGuard (Guard.h 29-50): the stored callable plus the `active_` flag. -/
structure StackGuardM (τ : Type) where
  target : τ
  active : Bool
deriving DecidableEq, Repr

/-- The StackGuard constructor (Guard.h 32): stores the target and arms the
guard (`active_(true)`). -/
def StackGuardM.make (t : τ) : StackGuardM τ := ⟨t, true⟩

/-- StackGuard::dismiss (Guard.h 43-45): `active_ = false`. -/
def StackGuardM.dismiss (g : StackGuardM τ) : StackGuardM τ :=
  { g with active := false }

/-- The StackGuard destructor (Guard.h 34-41): `if (active_) target_();` —
the number of payload invocations the drop performs. -/
def StackGuardM.dropInvocations (g : StackGuardM τ) : Nat :=
  if g.active then 1 else 0

/-- target_ is a data member of StackGuard (and of Guard), so its destructor
runs whenever the guard is destroyed, armed or dismissed alike. -/
def StackGuardM.payloadDestructorRuns (_g : StackGuardM τ) : Bool := true

/-- The trampoline slot of TrivialGuard (Guard.h 95-106): either the thunk
`[](void* ptr) { (*static_cast<D*>(ptr))(); }` installed by the constructor,
or the no-op thunk `[](void*) {}` installed by dismiss. -/
inductive TrampolineM (τ : Type) where
  | call (t : τ)
  | noop
deriving DecidableEq, Repr

/-- TrivialGuard (Guard.h 79-106): the type-erased guard for trivially
destructible callables; its only state beyond the payload buffer is the
trampoline pointer. -/
structure TrivialGuardM (τ : Type) where
  tramp : TrampolineM τ
deriving DecidableEq, Repr

/-- The TrivialGuard constructor (Guard.h 82-93): stores the payload and
installs the invoking trampoline. -/
def TrivialGuardM.make (t : τ) : TrivialGuardM τ := ⟨.call t⟩

/-- TrivialGuard::dismiss (Guard.h 99-101): replaces the trampoline with the
no-op thunk. -/
def TrivialGuardM.dismiss (_g : TrivialGuardM τ) : TrivialGuardM τ := ⟨.noop⟩

/-- The TrivialGuard destructor (Guard.h 95-97): `trampoline_(&storage_);` —
invokes the payload exactly when the invoking trampoline is still installed.
(The payload is trivially destructible — that is the admission condition
`IsTrivialGuardCallable` of the factory — so its destructor is a no-op that
trivially runs.) -/
def TrivialGuardM.dropInvocations (g : TrivialGuardM τ) : Nat :=
  match g.tramp with
  | .call _ => 1
  | .noop => 0

/-- Guard (Guard.h 113-133): the heap-allocated, virtual form used by the
factory for non-trivial callables; behaviourally the flag-based StackGuard. -/
structure HeapGuardM (τ : Type) where
  target : τ
  active : Bool
deriving DecidableEq, Repr

/-- The Guard constructor (Guard.h 116-118): stores the target, arms. -/
def HeapGuardM.make (t : τ) : HeapGuardM τ := ⟨t, true⟩

/-- Guard::dismiss (Guard.h 126-128): `active_ = false`. -/
def HeapGuardM.dismiss (g : HeapGuardM τ) : HeapGuardM τ :=
  { g with active := false }

/-- The Guard destructor (Guard.h 120-124): `if (active_) target_();`. -/
def HeapGuardM.dropInvocations (g : HeapGuardM τ) : Nat :=
  if g.active then 1 else 0

/-- makeGuard (Guard.h 137-145): returns a TrivialGuard when
`IsTrivialGuardCallable<T>` holds (here the boolean `useTrivial`), otherwise a
Guard. -/
def makeGuard (useTrivial : Bool) (t : τ) : Sum (TrivialGuardM τ) (HeapGuardM τ) :=
  if useTrivial then .inl (TrivialGuardM.make t) else .inr (HeapGuardM.make t)

/-- dismiss through the type-erased GuardBase interface (Guard.h 56-61). -/
def guardKeyDismiss : Sum (TrivialGuardM τ) (HeapGuardM τ) → Sum (TrivialGuardM τ) (HeapGuardM τ)
  | .inl g => .inl g.dismiss
  | .inr g => .inr g.dismiss

/-- Dropping the owning GuardKey (Guard.h 135) destroys whichever guard the
factory created. -/
def guardKeyDropInvocations : Sum (TrivialGuardM τ) (HeapGuardM τ) → Nat
  | .inl g => g.dropInvocations
  | .inr g => g.dropInvocations

/-- An execution in which `dismiss` is called `n` times between construction
and drop. -/
def iterDismiss {γ : Type} (dismiss : γ → γ) (g : γ) : Nat → γ
  | 0 => g
  | n + 1 => dismiss (iterDismiss dismiss g n)

/-! ## Helper lemmas: closed forms of the translated loops -/

theorem shorten_eq_take (v : List α) (t : Nat) : shorten v t = v.take t := by
  rw [shorten]
  split
  · rename_i h
    rw [shorten_eq_take (pop_back v) t]
    simp only [pop_back, List.dropLast_eq_take, List.take_take]
    congr 1
    omega
  · rename_i h
    rw [List.take_of_length_le (by omega)]
termination_by v.length
decreasing_by simp [pop_back]; omega

theorem clear_eq_nil (v : List α) : clear v = [] := by
  simp [clear, shorten_eq_take]

theorem movePushLoop_eq (dst src : List α) :
    movePushLoop dst src = dst ++ src.drop dst.length := by
  rw [movePushLoop]
  split
  · rename_i h
    rw [movePushLoop_eq (push_back dst (src.get ⟨dst.length, h⟩)) src]
    simp only [push_back, List.length_append, List.length_cons, List.length_nil]
    rw [List.append_assoc]
    congr 1
    rw [List.drop_eq_getElem_cons h]
    simp
  · rename_i h
    rw [List.drop_eq_nil_of_le (by omega)]
    simp
termination_by src.length - dst.length
decreasing_by simp [push_back]; omega

theorem overwriteLoop_eq (dst src : List α) :
    overwriteLoop dst src = src.take (min dst.length src.length) := by
  induction dst generalizing src with
  | nil => simp [overwriteLoop]
  | cons x xs ih =>
    cases src with
    | nil => simp [overwriteLoop]
    | cons y ys =>
      simp only [overwriteLoop, List.zipWith_cons_cons, List.length_cons,
        Nat.succ_min_succ, List.take_succ_cons]
      rw [← ih ys]
      rfl

theorem moveConstruct_eq (trivialMC : Bool) (src : List α) :
    moveConstruct trivialMC src = (src, []) := by
  cases trivialMC <;> simp [moveConstruct, movePushLoop_eq, clear_eq_nil]

theorem movePush_over (d s : List α) : movePushLoop (overwriteLoop d s) s = s := by
  rw [overwriteLoop_eq, movePushLoop_eq, List.length_take,
    min_eq_left (Nat.min_le_right d.length s.length)]
  exact List.take_append_drop _ _

theorem moveAssign_eq (dst src : List α) : moveAssign dst src = (src, []) := by
  simp only [moveAssign, shorten_eq_take, clear_eq_nil]
  rw [movePush_over]

theorem stdSwapObjects_eq (a b : List α) : stdSwapObjects a b = (b, a) := by
  simp [stdSwapObjects, moveConstruct_eq, moveAssign_eq]

theorem foldl_push_back (l acc : List α) : l.foldl push_back acc = acc ++ l := by
  induction l generalizing acc with
  | nil => simp
  | cons x xs ih => simp [List.foldl_cons, push_back, ih]

theorem zipWith_fst (s l : List α) :
    List.zipWith (fun x _ => x) s l = s.take (min s.length l.length) := by
  induction s generalizing l with
  | nil => simp
  | cons x xs ih =>
    cases l with
    | nil => simp
    | cons y ys =>
      simp only [List.zipWith_cons_cons, List.length_cons, Nat.succ_min_succ,
        List.take_succ_cons]
      rw [ih ys]

theorem swapAVCore_eq (s l : List α) (h : s.length ≤ l.length) :
    swapAVCore s l = (l, s) := by
  have hzip1 : List.zipWith (fun _ y => y) s l = l.take s.length := by
    rw [show List.zipWith (fun (_ y : α) => y) s l = overwriteLoop s l from rfl,
      overwriteLoop_eq, min_eq_left h]
  have hzip2 : List.zipWith (fun x _ => x) s l = s := by
    rw [zipWith_fst, min_eq_left h, List.take_length]
  have hlen : (l.take s.length).length = s.length := by
    rw [List.length_take, min_eq_left h]
  simp only [swapAVCore, swapRanges, hzip1, hzip2, hlen, foldl_push_back, shorten_eq_take]
  rw [List.drop_left, List.take_left, List.take_append_drop]

theorem swapAV_eq (a b : List α) :
    swapAV a b = if b.length < a.length then (a, b) else (b, a) := by
  simp only [swapAV]
  split
  · rename_i h
    rw [stdSwapObjects_eq]
    exact swapAVCore_eq b a (by omega)
  · rename_i h
    exact swapAVCore_eq a b (by omega)

theorem shiftLoop_spec (s : List α) (first last : Nat) (h1 : first ≤ last)
    (h2 : last ≤ s.length) :
    shiftLoop s first last =
      (s.take first ++ s.drop last ++ s.drop (s.length - (last - first)),
       s.length - (last - first), s.length) := by
  rw [shiftLoop]
  split
  · rename_i h
    have hf : first < s.length := by omega
    have hd : first < s.length - (last - first) := by omega
    rw [shiftLoop_spec _ (first + 1) (last + 1) (by omega) (by simpa using h)]
    simp only [List.length_set]
    have e1 : last + 1 - (first + 1) = last - first := by omega
    rw [e1]
    refine Prod.ext ?_ rfl
    simp only
    rw [List.set_take, List.take_succ, List.getElem?_eq_getElem hf,
      List.set_append_right _ _ (by rw [List.length_take, min_eq_left (by omega)]),
      List.length_take, min_eq_left (by omega), Nat.sub_self,
      List.drop_set, if_pos (by omega), List.drop_set, if_pos (by omega),
      List.drop_eq_getElem_cons h]
    simp
  · rename_i h
    have hl : last = s.length := by omega
    subst hl
    have e1 : s.length - (s.length - first) = first := by omega
    rw [List.drop_length, e1]
    simp [List.take_append_drop]
termination_by s.length - last
decreasing_by simp; omega

theorem eraseRange_eq (v : List α) (a b : Nat) (h1 : a ≤ b) (h2 : b ≤ v.length) :
    eraseRange v a b = v.take a ++ v.drop b := by
  simp only [eraseRange]
  rw [shiftLoop_spec v a b h1 h2]
  simp only [List.length_append, List.length_take, List.length_drop]
  have ha : min a v.length = a := min_eq_left (by omega)
  rw [ha]
  have e1 : a + (v.length - b) + (v.length - (v.length - (b - a))) -
      (v.length - (v.length - (b - a))) = a + (v.length - b) := by omega
  rw [e1, shorten_eq_take]
  exact List.take_left' (by simp only [List.length_append, List.length_take,
    List.length_drop, ha])

theorem expandC_fills_to_cap (cap : Nat) (v : List α) (k : Nat) (x : α)
    (h1 : v.length ≤ cap) (h2 : cap < k) :
    expandC cap v k x = (v ++ List.replicate (cap - v.length) x, some .capacityExceeded) := by
  rw [expandC, if_pos (by omega : v.length < k)]
  by_cases hc : cap ≤ v.length
  · rw [if_pos hc]
    have hz : cap - v.length = 0 := by omega
    rw [hz]
    simp
  · rw [if_neg hc]
    rw [expandC_fills_to_cap cap (v ++ [x]) k x (by simp; omega) h2]
    simp only [List.length_append, List.length_cons, List.length_nil]
    rw [List.append_assoc]
    have e1 : cap - v.length = (cap - (v.length + 0 + 1)) + 1 := by omega
    rw [e1, List.replicate_succ]
    simp
termination_by cap - v.length
decreasing_by simp; omega

theorem IsInPack_iff [DecidableEq Ty] (e : Ty) (l : List Ty) :
    IsInPack e l = true ↔ e ∈ l := by
  simp [IsInPack]

theorem IndexV_spec [DecidableEq Ty] (e : Ty) (l : List Ty) (h : e ∈ l) :
    l[IndexV e l]? = some e ∧ ∀ i < IndexV e l, l[i]? ≠ some e := by
  induction l with
  | nil => cases h
  | cons t ts ih =>
    rw [IndexV]
    by_cases he : e = t
    · subst he
      simp
    · rw [if_neg he]
      have hmem : e ∈ ts := by
        rcases List.mem_cons.mp h with h0 | h0
        · exact absurd h0 he
        · exact h0
      obtain ⟨ih1, ih2⟩ := ih hmem
      refine ⟨?_, ?_⟩
      · rw [Nat.add_comm, List.getElem?_cons_succ]
        exact ih1
      · intro i hi
        cases i with
        | zero =>
          simp only [List.getElem?_cons_zero, ne_eq, Option.some.injEq]
          exact fun hte => he hte.symm
        | succ n =>
          rw [List.getElem?_cons_succ]
          exact ih2 n (by omega)

theorem IndexForType_spec [DecidableEq Ty] (ctor : Ty → Ty → Bool) (e : Ty) (l : List Ty)
    (hnot : e ∉ l) (hex : ∃ t ∈ l, ctor t e = true) :
    ∃ tj, l[IndexForType ctor e l]? = some tj ∧ ctor tj e = true ∧
      ∀ i < IndexForType ctor e l, ∀ ti, l[i]? = some ti → ctor ti e = false := by
  induction l with
  | nil =>
    obtain ⟨t, ht, _⟩ := hex
    cases ht
  | cons t ts ih =>
    rw [IndexForType]
    have hip : ¬ (IsInPack e (t :: ts) = true) := fun hh => hnot ((IsInPack_iff e _).mp hh)
    rw [if_neg hip]
    by_cases hc : ctor t e = true
    · rw [if_pos hc]
      exact ⟨t, by simp, hc, fun i hi => by omega⟩
    · rw [if_neg hc]
      have hnot2 : e ∉ ts := fun hh => hnot (List.mem_cons_of_mem _ hh)
      have hex2 : ∃ x ∈ ts, ctor x e = true := by
        obtain ⟨x, hx, hcx⟩ := hex
        rcases List.mem_cons.mp hx with h0 | h0
        · subst h0
          exact absurd hcx hc
        · exact ⟨x, h0, hcx⟩
      obtain ⟨tj, hj1, hj2, hj3⟩ := ih hnot2 hex2
      refine ⟨tj, ?_, hj2, ?_⟩
      · rw [Nat.add_comm, List.getElem?_cons_succ]
        exact hj1
      · intro i hi ti hti
        cases i with
        | zero =>
          simp only [List.getElem?_cons_zero, Option.some.injEq] at hti
          subst hti
          exact Bool.eq_false_iff.mpr hc
        | succ n =>
          rw [List.getElem?_cons_succ] at hti
          exact hj3 n (by omega) ti hti

theorem visitChain_reaches_tag {k : Nat} {σ : Fin k → Type} {β : Type}
    (f : (j : Fin k) → σ j → β) (v : VariantM k σ) (i : Nat) (hi : i ≤ v.tag.val) :
    visitChain f v i = some (f v.tag v.val) := by
  rw [visitChain]
  have hik : i < k := lt_of_le_of_lt hi v.tag.isLt
  rw [dif_pos hik]
  by_cases ht : v.tag = ⟨i, hik⟩
  · rw [dif_pos ht]
  · rw [dif_neg ht]
    have hne : v.tag.val ≠ i := fun hh => ht (Fin.ext hh)
    exact visitChain_reaches_tag f v (i + 1) (by omega)
termination_by k - i
decreasing_by omega

theorem dismissed_stack_guard_silent (g : StackGuardM τ) :
    g.dismiss.dropInvocations = 0 := by
  simp [StackGuardM.dismiss, StackGuardM.dropInvocations]

theorem dismissed_guard_key_silent (g : Sum (TrivialGuardM τ) (HeapGuardM τ)) :
    guardKeyDropInvocations (guardKeyDismiss g) = 0 := by
  cases g with
  | inl g =>
    simp [guardKeyDismiss, guardKeyDropInvocations, TrivialGuardM.dismiss,
      TrivialGuardM.dropInvocations]
  | inr g =>
    simp [guardKeyDismiss, guardKeyDropInvocations, HeapGuardM.dismiss,
      HeapGuardM.dropInvocations]

/-! ## Claim theorems -/

/-- C1: the claim says `swap(a, b)` exchanges the contents of the two vectors
in both size orders.  The code violates this whenever `size(a) > size(b)`:
`std::swap(smaller, larger)` on the two reference variables exchanges the
referred-to objects' contents (references cannot be re-seated), and the
subsequent swap_ranges / push_back / shorten steps exchange them back, so the
call is an observable no-op.  This theorem evaluates the translated code at
the failing input `a = [10, 20]`, `b = [30]` (both vectors unchanged although
the claim requires `([30], [10, 20])`), and at the mirrored input
`a = [30]`, `b = [10, 20]`, where the exchange does happen as claimed. -/
theorem C1_swap_noop_when_first_larger :
    swapAV [10, 20] [30] = ([10, 20], [30]) ∧
    swapAV [30] [10, 20] = ([10, 20], [30]) := by
  rw [swapAV_eq, swapAV_eq]
  decide

/-- C2: the claim says `resize(k)` for `L < k ≤ N` writes only slots `[L, k)`,
including on the trivially-constructible bulk-fill fast path.  The fast path
of `expand` (ArrayVector.h 344-346, 357-359) computes
`end = begin + (toSize - size_) + 1` and therefore fills one slot too many:
slots `L .. k` inclusive.  Evaluated at `L = 0`, `k = 2` (e.g.
`ArrayVector<int, 2> v; v.resize(2);`): the fast path writes slots 0, 1, 2 —
slot `k = 2` is written, and here it even lies past the end of the
capacity-2 storage — while the general emplace_back path writes only 0, 1. -/
theorem C2_expand_fast_path_writes_slot_k :
    expandWritesTrivial 0 2 = [0, 1, 2] ∧
    2 ∈ expandWritesTrivial 0 2 ∧
    2 ∉ expandWritesGeneral 0 2 := by
  decide

/-- C3 counterexample: the claim says every checked-mode operation that would
exceed the capacity fails with a capacity-exceeded error AND leaves the
length and live elements unchanged.  For `resize` this is false: growing
`v = [5]` (length 1) to `k = 3` in a capacity-2 checked vector does throw,
but only after the expand loop has already emplaced elements up to the
capacity — the vector ends as `[5, 7]`, not `[5]`. -/
theorem C3_counterexample_resize_modifies_state :
    (expandC 2 [5] 3 (7 : Nat)).2 = some AVError.capacityExceeded ∧
    (expandC 2 [5] 3 (7 : Nat)).1 ≠ [5] := by
  rw [expandC_fills_to_cap 2 [5] 3 (7 : Nat) (by decide) (by decide)]
  exact ⟨rfl, by decide⟩

/-- C3 (amended): in checked mode, (1) emplace_back (and hence push_back) on
a full vector fails with capacity-exceeded before touching the storage or the
length; (2) `resize(k)` / `expand` to `k > N` on the general path fails with
capacity-exceeded, but only after filling the vector up to exactly the
capacity — the elements constructed before the failure remain; (3) the
trivially-constructible fast path of `expand` contains no capacity check at
all and never produces the error; (4) the count constructor behaves as the
expand of an empty vector (after a mode-independent debug assert). -/
theorem C3_amended_checked_capacity :
    (∀ (α : Type) (cap : Nat) (v : List α) (x : α), cap ≤ v.length →
        emplace_backC cap v x = .error .capacityExceeded) ∧
    (∀ (α : Type) (cap : Nat) (v : List α) (k : Nat) (x : α), v.length ≤ cap → cap < k →
        expandC cap v k x = (v ++ List.replicate (cap - v.length) x,
          some .capacityExceeded)) ∧
    (∀ L k : Nat, (expandTrivialC L k).2.2 = none) ∧
    (∀ (α : Type) (cap count : Nat) (x : α), cap < count →
        countCtorC cap count x = (List.replicate cap x, some .capacityExceeded)) := by
  refine ⟨?_, ?_, ?_, ?_⟩
  · intro α cap v x h
    simp [emplace_backC, checkSize, if_pos h]
  · intro α cap v k x h1 h2
    exact expandC_fills_to_cap cap v k x h1 h2
  · intro L k
    rfl
  · intro α cap count x h
    have := expandC_fills_to_cap cap ([] : List α) count x (by simp) h
    simpa [countCtorC] using this

/-- C3 witness: the amended behaviour at concrete inputs with capacity 2. -/
theorem C3_amended_witness :
    emplace_backC 2 [1, 2] (9 : Nat) = .error .capacityExceeded ∧
    expandC 2 [5] 4 (7 : Nat) = ([5, 7], some .capacityExceeded) ∧
    (expandTrivialC 0 3).2.2 = none ∧
    countCtorC 2 3 (6 : Nat) = ([6, 6], some .capacityExceeded) := by
  obtain ⟨h1, h2, h3, h4⟩ := C3_amended_checked_capacity
  exact ⟨h1 Nat 2 [1, 2] 9 (by decide),
    (h2 Nat 2 [5] 4 7 (by decide) (by decide)).trans (by decide),
    h3 0 3,
    (h4 Nat 2 3 6 (by decide)).trans (by decide)⟩

/-- C4 counterexample: the claim says indexing at any position `p ≥ size(v)`
aborts.  The assert in `operator[]` (ArrayVector.h 221, 226) checks
`pos < capacity_`, not `pos < size_`: on an empty vector of capacity 4,
reading position 2 (which is ≥ the size 0) passes the assertion and does not
abort. -/
theorem C4_counterexample_index_past_size_no_abort :
    (AVState.mk ([] : List Nat) 4).data.length ≤ 2 ∧
    opIndexAborts (AVState.mk ([] : List Nat) 4) 2 = false := by
  decide

/-- C4 (amended): in assertion mode, indexing aborts exactly when the
position reaches the CAPACITY `N` (positions in `[size, N)` pass the assert
and read raw storage without aborting), and `pop_back` on an empty vector
does not abort: it has no emptiness check, so the `std::size_t` length wraps
to `2^64 - 1`; on a non-empty vector it decrements the length by one. -/
theorem C4_amended_assert_against_capacity (v : AVState α) (pos s : Nat)
    (h0 : 0 < s) (h1 : s < 2 ^ 64) :
    (opIndexAborts v pos = true ↔ v.cap ≤ pos) ∧
    popBackSize 0 = 2 ^ 64 - 1 ∧
    popBackSize s = s - 1 := by
  refine ⟨by simp [opIndexAborts], by decide, ?_⟩
  have hp : (2 : Nat) ^ 64 = 18446744073709551616 := by norm_num
  simp only [popBackSize, hp]
  omega

/-- C4 witness: amended behaviour at a capacity-4 vector holding one
element, read position 7, and pop sizes 0 and 5. -/
theorem C4_amended_witness :
    (opIndexAborts (AVState.mk ([3] : List Nat) 4) 7 = true ↔
      (AVState.mk ([3] : List Nat) 4).cap ≤ 7) ∧
    popBackSize 0 = 2 ^ 64 - 1 ∧
    popBackSize 5 = 5 - 1 :=
  C4_amended_assert_against_capacity (AVState.mk ([3] : List Nat) 4) 7 5
    (by decide) (by norm_num)

/-- C5: `erase(a, b)` on a vector holding `s` with `a ≤ b ≤ size` leaves
exactly `s` with the positions `[a, b)` removed, in order, and the new size
is the old size minus `b - a`. -/
theorem C5_erase_removes_range (v : List α) (a b : Nat) (h1 : a ≤ b)
    (h2 : b ≤ v.length) :
    eraseRange v a b = v.take a ++ v.drop b ∧
    (eraseRange v a b).length = v.length - (b - a) := by
  have h := eraseRange_eq v a b h1 h2
  refine ⟨h, ?_⟩
  rw [h]
  simp only [List.length_append, List.length_take, List.length_drop,
    min_eq_left (show a ≤ v.length by omega)]
  omega

/-- C5 witness: erasing positions `[1, 3)` of `[0, 1, 2, 3, 4]` yields
`[0, 3, 4]` of length 3. -/
theorem C5_erase_witness :
    eraseRange [0, 1, 2, 3, 4] 1 3 = [0, 3, 4] ∧
    (eraseRange [0, 1, 2, 3, 4] 1 3).length = 3 := by
  have h := C5_erase_removes_range [0, 1, 2, 3, 4] 1 3 (by decide) (by decide)
  exact ⟨h.1.trans (by decide), h.2.trans (by decide)⟩

/-- C6: move construction (both the trivially-move-constructible `memcpy`
branch and the push_back-loop branch) and move assignment hand the source's
whole sequence to the destination and leave the source empty, because both
end with `other.clear()`. -/
theorem C6_move_empties_source (trivialMC : Bool) (dst src : List α) :
    moveConstruct trivialMC src = (src, []) ∧ moveAssign dst src = (src, []) :=
  ⟨moveConstruct_eq trivialMC src, moveAssign_eq dst src⟩

/-- C7: variant construction from a value selects (1) the first exactly
matching alternative when one exists — regardless of which alternatives are
constructible from the value — with the live alternative being that type;
(2) otherwise the first alternative constructible from the value, with the
live alternative constructed from it; and (3) default construction stores
tag 0 with alternative 0. -/
theorem C7_construction_selects_alternative :
    (∀ (Ty : Type) [DecidableEq Ty] (ctor : Ty → Ty → Bool) (pack : List Ty) (e : Ty),
        e ∈ pack →
        ∃ j, constructFromValue ctor e pack = some ⟨j, e⟩ ∧
          pack[j]? = some e ∧ ∀ i < j, pack[i]? ≠ some e) ∧
    (∀ (Ty : Type) [DecidableEq Ty] (ctor : Ty → Ty → Bool) (pack : List Ty) (e : Ty),
        e ∉ pack → (∃ t ∈ pack, ctor t e = true) →
        ∃ j tj, constructFromValue ctor e pack = some ⟨j, tj⟩ ∧
          pack[j]? = some tj ∧ ctor tj e = true ∧
          ∀ i < j, ∀ ti, pack[i]? = some ti → ctor ti e = false) ∧
    (∀ (Ty : Type) (pack : List Ty) (h : pack ≠ []),
        (constructDefault pack h).tag = 0 ∧
        (constructDefault pack h).heldType = pack.head h) := by
  refine ⟨?_, ?_, ?_⟩
  · intro Ty _ ctor pack e hmem
    obtain ⟨hv1, hv2⟩ := IndexV_spec e pack hmem
    refine ⟨IndexV e pack, ?_, hv1, hv2⟩
    rw [constructFromValue, selectTag, if_pos ((IsInPack_iff e pack).mpr hmem),
      Option.map_some']
    congr 1
    rw [List.getD_eq_getElem?_getD, hv1]
    rfl
  · intro Ty _ ctor pack e hnot hex
    obtain ⟨tj, hj1, hj2, hj3⟩ := IndexForType_spec ctor e pack hnot hex
    refine ⟨IndexForType ctor e pack, tj, ?_, hj1, hj2, hj3⟩
    have hip : ¬ (IsInPack e pack = true) := fun hh => hnot ((IsInPack_iff e pack).mp hh)
    have hany : pack.any (fun t => ctor t e) = true := by
      obtain ⟨t, ht, hct⟩ := hex
      exact List.any_eq_true.mpr ⟨t, ht, hct⟩
    rw [constructFromValue, selectTag, if_neg hip, if_pos hany, Option.map_some']
    congr 1
    rw [List.getD_eq_getElem?_getD, hj1]
    rfl
  · intro Ty pack h
    exact ⟨rfl, rfl⟩

/-- C7 witness: with type codes 10, 20, 30 over `Nat`: (1) constructing
`Variant<10, 20, 20>` from a value of type 20 picks tag 1 (the first exact
match) even though alternative 0 is constructible from everything here;
(2) constructing `Variant<10, 20, 30>` from a value of type 99 (no exact
match) picks tag 1, the first constructible alternative; (3) default
construction of `Variant<10>` stores tag 0. -/
theorem C7_construction_witness :
    (∃ j, constructFromValue (fun _ _ => true) (20 : Nat) [10, 20, 20] = some ⟨j, 20⟩ ∧
      [10, 20, 20][j]? = some 20 ∧ ∀ i < j, [10, 20, 20][i]? ≠ some 20) ∧
    (∃ j tj, constructFromValue (fun t _ => decide (t = 20)) (99 : Nat) [10, 20, 30]
        = some ⟨j, tj⟩ ∧
      [10, 20, 30][j]? = some tj ∧ decide (tj = 20) = true ∧
      ∀ i < j, ∀ ti, [10, 20, 30][i]? = some ti → decide (ti = 20) = false) ∧
    ((constructDefault [10] (by decide)).tag = 0 ∧
      (constructDefault ([10] : List Nat) (by decide)).heldType
        = ([10] : List Nat).head (by decide)) := by
  obtain ⟨h1, h2, h3⟩ := C7_construction_selects_alternative
  exact ⟨h1 Nat (fun _ _ => true) [10, 20, 20] 20 (by decide),
    h2 Nat (fun t _ => decide (t = 20)) [10, 20, 30] 99 (by decide)
      (by exact ⟨20, by decide, by decide⟩),
    h3 Nat [10] (by decide)⟩

/-- C8: for a variant whose tag is a valid index, the compile-time chain that
compares the tag against 0, 1, … (starting at `run<0>`) reaches exactly the
live alternative — never the fell-off-the-end fallback — and produces the
one visitor call `f tag val`, which is precisely what the static thunk-table
strategy `lookup[tag]` produces; the two strategies agree for every visitor. -/
theorem C8_visit_strategies_agree {k : Nat} {σ : Fin k → Type} {β : Type}
    (f : (j : Fin k) → σ j → β) (v : VariantM k σ) :
    visitChain f v 0 = some (visitTable f v) :=
  visitChain_reaches_tag f v 0 (Nat.zero_le _)

/-- C9: for every execution (construction, then `n` dismiss calls, then
drop) of the stack guard and of both guards the factory can produce: the
drop invokes the payload exactly once when the guard is still armed
(`n = 0`) and never otherwise — in particular never more than once and never
after a dismiss — while the payload's destructor runs regardless. -/
theorem C9_guard_payload_invocations (τ : Type) (t : τ) (n : Nat) (useTrivial : Bool) :
    (StackGuardM.dropInvocations (iterDismiss StackGuardM.dismiss (StackGuardM.make t) n)
      = if n = 0 then 1 else 0) ∧
    (guardKeyDropInvocations (iterDismiss guardKeyDismiss (makeGuard useTrivial t) n)
      = if n = 0 then 1 else 0) ∧
    StackGuardM.payloadDestructorRuns
      (iterDismiss StackGuardM.dismiss (StackGuardM.make t) n) = true := by
  refine ⟨?_, ?_, rfl⟩
  · cases n with
    | zero => simp [iterDismiss, StackGuardM.make, StackGuardM.dropInvocations]
    | succ m => simp [iterDismiss, dismissed_stack_guard_silent]
  · cases n with
    | zero =>
      cases useTrivial <;>
        simp [iterDismiss, makeGuard, guardKeyDropInvocations, TrivialGuardM.make,
          TrivialGuardM.dropInvocations, HeapGuardM.make, HeapGuardM.dropInvocations]
    | succ m => simp [iterDismiss, dismissed_guard_key_silent]

/-- C10: `operator==` compares only the left operand's live prefix: for
`size(l) ≤ size(r)`, `l == r` holds exactly when the first `size(l)` elements
of `r` coincide with `l` — so a shorter left vector that is a prefix of the
right compares equal, and the empty vector on the left compares equal to
everything. -/
theorem C10_eq_compares_left_elements_only [DecidableEq α] (l r : List α)
    (h : l.length ≤ r.length) :
    avBeq l r = true ↔ l = r.take l.length := by
  induction l generalizing r with
  | nil => simp [avBeq]
  | cons x xs ih =>
    cases r with
    | nil => simp at h
    | cons y ys =>
      simp only [avBeq, List.zipWith_cons_cons, List.all_cons, id_eq,
        Bool.and_eq_true, decide_eq_true_eq, List.length_cons,
        List.take_succ_cons, List.cons.injEq]
      have hxy : (List.zipWith (fun x y => decide (x = y)) xs ys).all id = true ↔
          xs = ys.take xs.length := ih ys (by simpa using h)
      rw [hxy]

/-- C10 witness: `[1, 2] == [1, 2, 9]` holds — the left operand is a strict
prefix of the right. -/
theorem C10_eq_witness : avBeq [1, 2] [1, 2, 9] = true :=
  (C10_eq_compares_left_elements_only [1, 2] [1, 2, 9] (by decide)).mpr (by decide)

end CppHelpers
